import Mathlib

/-
Verification development for the sis-scraper repository.

Shallow embedding of the pure cores of
  src/sis_scraper/sis_scraper.py   (get_term_code, get_subj_course_data,
                                    get_term_course_data)
  src/sis_scraper/sis_api.py       (retry_get, get_class_description,
                                    get_class_restrictions)
  src/sis_scraper/postprocess.py   (process_term restriction rewriting,
                                    CodeMapper._generate_rcsid)

Strings are modelled with Lean `String` (ASCII fragment of Python `str`:
`str.lower` as `Char.toLower`, `str.isalpha`/`isdigit` as the ASCII
predicates, `str.strip` with `Char.isWhitespace`).
-/

namespace SisScraper

/-! ### Python string primitives -/

/-- Whitespace predicate used by Python `str.strip`/`lstrip` (ASCII fragment). -/
def isPySpace (c : Char) : Bool := c.isWhitespace

/-- Python `str.lstrip()`. -/
def lstrip (s : String) : String := ⟨s.data.dropWhile isPySpace⟩

/-- Prefix test on the character lists (the anchored match of a literal
regex fragment). -/
def strStartsWith (p s : String) : Bool := p.data.isPrefixOf s.data

/-- Drop the first `n` characters. -/
def strDropChars (s : String) (n : Nat) : String := ⟨s.data.drop n⟩

/-- Python `str.rstrip()`. -/
def rstrip (s : String) : String := ⟨(s.data.reverse.dropWhile isPySpace).reverse⟩

/-- Python `str.strip()`. -/
def strip (s : String) : String := rstrip (lstrip s)

/-- Python `str.lower()` (ASCII fragment). -/
def lowerStr (s : String) : String := ⟨s.data.map Char.toLower⟩

/-- Lexicographic strict comparison of character lists by code point —
Python's `<` on `str`. -/
def charListLtB : List Char → List Char → Bool
  | [], [] => false
  | [], _ :: _ => true
  | _ :: _, [] => false
  | a :: as, b :: bs =>
    if a < b then true
    else if b < a then false
    else charListLtB as bs

/-- Python's `<=` on `str` (the total order used by `sorted`). -/
def strLeB (a b : String) : Bool := !(charListLtB b.data a.data)

/-! ### `get_term_code` (sis_scraper.py, lines 27-52) -/

/-- Digit-and-underscore body of a Python integer literal, as accepted by
`int(str)`: after the first digit, every underscore must be followed by a
digit.  Accumulates the decimal value. -/
def pyDigits : Nat → List Char → Option Nat
  | acc, [] => some acc
  | _, ['_'] => none
  | acc, '_' :: c :: cs =>
    if c.isDigit then pyDigits (acc * 10 + (c.toNat - '0'.toNat)) cs else none
  | acc, c :: cs =>
    if c.isDigit then pyDigits (acc * 10 + (c.toNat - '0'.toNat)) cs else none

/-- Python `int(s)` for a string argument (ASCII fragment): surrounding
whitespace is stripped, an optional sign is allowed, then digits with single
interior underscores.  `Option.none` models the raised `ValueError`. -/
def pyIntOfString (s : String) : Option Int :=
  let t := ((s.data.dropWhile isPySpace).reverse.dropWhile isPySpace).reverse
  match t with
  | '+' :: c :: cs =>
    if c.isDigit then (pyDigits (c.toNat - '0'.toNat) cs).map Int.ofNat
    else none
  | '-' :: c :: cs =>
    if c.isDigit then (pyDigits (c.toNat - '0'.toNat) cs).map (fun n => -(Int.ofNat n))
    else none
  | c :: cs =>
    if c.isDigit then (pyDigits (c.toNat - '0'.toNat) cs).map Int.ofNat
    else none
  | [] => none

/-- The `year` argument of `get_term_code`: Python `None`, an `int`, or a `str`. -/
inductive PyYear where
  | pynone
  | int (n : Int)
  | str (s : String)
deriving DecidableEq

/-- The `season` argument of `get_term_code`: Python `None`, a `str`, or a
value of any non-string type (rejected by the `isinstance` check). -/
inductive PySeason where
  | pynone
  | str (s : String)
  | nonStr
deriving DecidableEq

/-- Computation `int(year)` inside the `try` of `get_term_code`: identity on ints, Python
string parsing on strings.  `Option.none` models the caught
`ValueError`/`TypeError`. -/
def yearInt : PyYear → Option Int
  | .pynone => none
  | .int n => some n
  | .str s => pyIntOfString s

/-- The `season_map` dictionary lookup with default `""`
(`season_map.get(season_lower, "")`). -/
def seasonMapGet (seasonLower : String) (yearInt : Int) : String :=
  if seasonLower = "fall" then yearInt.repr ++ "09"
  else if seasonLower = "summer" then yearInt.repr ++ "05"
  else if seasonLower = "spring" then yearInt.repr ++ "01"
  else ""

/-- Model of `get_term_code` (sis_scraper.py). -/
def get_term_code (year : PyYear) (season : PySeason) : String :=
  match year, season with
  | .pynone, _ => ""
  | _, .pynone => ""
  | _, .nonStr => ""
  | y, .str s =>
    match yearInt y with
    | none => ""
    | some yi =>
      if yi < 1000 ∨ yi > 9999 then ""
      else seasonMapGet (strip (lowerStr s)) yi

/-! ### `get_class_description` (sis_api.py, lines 275-300) -/

/-- Model of the parsing tail of `get_class_description`: the input is
`Option.none` when the response has no description `<section>` (the
`soup.find` result is `None`), and otherwise the list of text lines obtained
by splitting the section text on `"\n"`.  The Lean result is `Option.none`
exactly when the Python function falls off the end of the `for` loop and
implicitly returns `None` instead of a `str`. -/
def get_class_description (sectionLines : Option (List String)) : Option String :=
  match sectionLines with
  | none => some ""
  | some lines => (lines.map strip).find? (fun t => t != "")

/-! ### `get_class_restrictions` (sis_api.py, lines 23-35 and 331-458)

The parser input is modelled as the list of `<span>` children of the
restrictions section in document order; each element is `Option.none` when the
tag's `.string` is `None` and otherwise its text. -/

/-- Dictionary `_RESTRICTION_TYPE_MAP` (sis_api.py, lines 23-35), in insertion order. -/
def restrictionTypeMap : List (String × String) :=
  [("Majors", "major"),
   ("Fields of Study (Major, Minor or Concentration)", "major"),
   ("Minors", "minor"),
   ("Levels", "level"),
   ("Classes", "classification"),
   ("Degrees", "degree"),
   ("Programs", "degree"),
   ("Departments", "department"),
   ("Campuses", "campus"),
   ("Colleges", "college"),
   ("Special Approvals", "special_approval")]

/-- The restrictions result: a key-to-list-of-items mapping with the
insertion order of a Python dict. -/
abbrev RState := List (String × List String)

/-- Computation `sorted(set(_RESTRICTION_TYPE_MAP.values()))`. -/
def restrictionBases : List String :=
  ((restrictionTypeMap.map Prod.snd).dedup).insertionSort (fun a b => strLeB a b = true)

/-- The pre-populated `restrictions_data` dict (sis_api.py, lines 365-372):
every base bound to `[]`, immediately followed by `not_<base>` bound to `[]`,
except that `special_approval` has no `not_` key. -/
def init_restrictions_data : RState :=
  restrictionBases.foldl
    (fun st b =>
      if b = "special_approval" then st ++ [(b, [])]
      else st ++ [(b, []), ("not_" ++ b, [])])
    []

/-- Test `re.match(r".*\(.*\)", s)` as a Boolean: some `'('` and a later `')'`
both occur before the first newline (`.` does not match `"\n"`). -/
def parenClosed (s : String) : Bool :=
  let p := s.data.takeWhile (fun c => c != '\n')
  ((p.dropWhile (fun c => c != '(')).drop 1).contains ')'

/-- Match of the restriction header pattern
`(Must|Cannot) be enrolled in one of the following (<escaped keys>):`
against a prefix of `cs` (Python `re.match` anchors only at the start).
Returns `(cannot?, type_plural)`. -/
def typedHeaderMatch (cs : String) : Option (Bool × String) :=
  let tryTail (cannot : Bool) (rest : String) : Option (Bool × String) :=
    (restrictionTypeMap.find? (fun kv => strStartsWith (kv.1 ++ ":") rest)).map
      (fun kv => (cannot, kv.1))
  if strStartsWith "Must be enrolled in one of the following " cs then
    tryTail false (strDropChars cs "Must be enrolled in one of the following ".length)
  else if strStartsWith "Cannot be enrolled in one of the following " cs then
    tryTail true (strDropChars cs "Cannot be enrolled in one of the following ".length)
  else none

/-- Match of `r"Special Approvals:"` against a prefix of `cs`. -/
def specialHeaderMatch (cs : String) : Bool :=
  strStartsWith "Special Approvals:" cs

/-- Result of `re.match(restriction_header_pattern, s) or
re.match(special_approvals_pattern, s)` (the typed pattern is tried first). -/
inductive HeaderMatch where
  | typed (cannot : Bool) (typePlural : String)
  | special
deriving DecidableEq

def matchHeaderPatterns (cs : String) : Option HeaderMatch :=
  match typedHeaderMatch cs with
  | some (c, k) => some (.typed c k)
  | none => if specialHeaderMatch cs then some .special else none

def hasKey (st : RState) (k : String) : Bool := (List.lookup k st).isSome

/-- Append `v` to the list bound to `k` (the Python code appends through an
alias of `restrictions_data[key]`). -/
def appendAt (st : RState) (k : String) (v : String) : RState :=
  st.map (fun p => if p.1 = k then (p.1, p.2 ++ [v]) else p)

/-- One outer-loop step of `get_class_restrictions` on a span with text `sp`:
decide the next mode (`none` = keep scanning, `some (key, "")` = start
collecting under `key`).  `Except.error ()` models the uncaught `KeyError`
raised by `restrictions_data[key]` when `key = "not_special_approval"`. -/
def outerMode (st : RState) (sp : String) : Except Unit (Option (String × String)) :=
  let cs := strip sp
  match matchHeaderPatterns cs with
  | none => .ok none
  | some .special =>
    -- `if "special_approval" not in restrictions_data: continue`
    if hasKey st "special_approval" then .ok (some ("special_approval", ""))
    else .ok none
  | some (.typed cannot k) =>
    match List.lookup k restrictionTypeMap with
    | none => .ok none  -- unknown restriction type: logged and skipped
    | some base =>
      let key := if cannot then "not_" ++ base else base
      -- `restriction_list = restrictions_data[key]` raises KeyError if absent
      if hasKey st key then .ok (some (key, "")) else .error ()

/-- The while-loop of `get_class_restrictions` (sis_api.py, lines 388-457).
The mode is `none` in the outer (header-scanning) loop and
`some (key, buffer)` in the inner (item-collecting) loop; spans with text
`None` are skipped by both loops with the buffer preserved.  A `break` out of
the inner loop re-examines the current span in the outer loop without
advancing. -/
def parseRestrictions :
    List (Option String) → Option (String × String) → RState → Except Unit RState
  | [], _, st => .ok st
  | none :: rest, mode, st => parseRestrictions rest mode st
  | some sp :: rest, none, st =>
    match outerMode st sp with
    | .error e => .error e
    | .ok mode' => parseRestrictions rest mode' st
  | some sp :: rest, some (key, buf), st =>
    let buf' := if buf = "" then lstrip sp else buf ++ "," ++ sp
    if (matchHeaderPatterns buf').isSome then
      -- `break`: the outer loop reprocesses this span as a candidate header
      match outerMode st sp with
      | .error e => .error e
      | .ok mode' => parseRestrictions rest mode' st
    else if key = "special_approval" ∨ parenClosed buf' then
      parseRestrictions rest (some (key, "")) (appendAt st key (strip buf'))
    else
      parseRestrictions rest (some (key, buf')) st

/-- Model of `get_class_restrictions`: parse the span texts starting from the
pre-populated dict. -/
def get_class_restrictions (spans : List (Option String)) : Except Unit RState :=
  parseRestrictions spans none init_restrictions_data

/-! ### Exceptions, `retry_get` (sis_api.py, lines 67-91) -/

/-- The Python exception classes relevant to the scraper's handlers. -/
inductive PyExc where
  /-- Exception `aiohttp.ClientResponseError` with the given HTTP status, raised by
  `response.raise_for_status()` (a subclass of `aiohttp.ClientError`). -/
  | clientResponseError (status : Nat)
  /-- Any other `aiohttp.ClientError` (connection reset, etc.). -/
  | clientError
  /-- Exception `asyncio.TimeoutError`. -/
  | timeoutError
  /-- Exception `tenacity.RetryError`, raised after `stop_after_attempt` exhausts. -/
  | retryError
  /-- Exception `json.JSONDecodeError` (a subclass of `ValueError`, not `ClientError`). -/
  | jsonDecodeError
  /-- Exception `KeyError`. -/
  | keyError
  /-- Any other exception. -/
  | otherError
deriving DecidableEq

/-- Test `isinstance(e, aiohttp.ClientError)`. -/
def isClientError : PyExc → Bool
  | .clientResponseError _ => true
  | .clientError => true
  | _ => false

/-- The tenacity predicate
`retry_if_exception_type((asyncio.TimeoutError, aiohttp.ClientError))`. -/
def retryPredicate (e : PyExc) : Bool :=
  match e with
  | .timeoutError => true
  | _ => isClientError e

def exceptIsOk : Except PyExc α → Bool
  | .ok _ => true
  | .error _ => false

instance {ε α : Type} [DecidableEq ε] [DecidableEq α] : DecidableEq (Except ε α)
  | .ok x, .ok y =>
    if h : x = y then .isTrue (by rw [h])
    else .isFalse (by intro hc; injection hc; contradiction)
  | .ok _, .error _ => .isFalse (fun hc => Except.noConfusion hc)
  | .error _, .ok _ => .isFalse (fun hc => Except.noConfusion hc)
  | .error e, .error f =>
    if h : e = f then .isTrue (by rw [h])
    else .isFalse (by intro hc; injection hc; contradiction)

/-- The tenacity retry loop around `retry_get`, `stop_after_attempt(3)` with
the default `reraise=False`: `attempts n` is the outcome of the `n`-th HTTP
attempt (1-based); the result pairs the final outcome with the number of
attempts performed.  The first argument counts the current attempt, the last
the remaining attempt budget. -/
def retryGo (attempts : Nat → Except PyExc String) (attemptNo : Nat) :
    Nat → Except PyExc String × Nat
  | 0 => (.error .retryError, attemptNo - 1)
  | remaining + 1 =>
    match attempts attemptNo with
    | .ok s => (.ok s, attemptNo)
    | .error e =>
      if retryPredicate e then
        match remaining with
        | 0 => (.error .retryError, attemptNo)
        | r + 1 => retryGo attempts (attemptNo + 1) (r + 1)
      else (.error e, attemptNo)

/-- Model of `retry_get` (sis_api.py): up to 3 attempts; retry only on
`asyncio.TimeoutError` and `aiohttp.ClientError`; after the third matching
failure a `RetryError` is raised; a non-matching exception is re-raised
immediately. -/
def retry_get (attempts : Nat → Except PyExc String) : Except PyExc String × Nat :=
  retryGo attempts 1 3

/-! ### `get_subj_course_data` (sis_scraper.py, lines 228-291) and
`get_term_course_data` (lines 294-405)

The network outcome of each stage is an explicit input of the model. -/

/-- The fields of a class entry that the subject worker's grouping and
sorting logic reads (`courseNumber` and `sequenceNumber`/`sectionNumber`). -/
structure ClassEntry where
  courseNumber : String
  sectionNumber : String
deriving DecidableEq, Repr

/-- Statement `if course_num not in course_data: course_data[course_num] = []` followed
by `course_data[course_num].append(class_entry)`: Python dict semantics (an
existing key keeps its position, a new key is appended). -/
def dictAppendEntry (m : List (String × List ClassEntry)) (k : String) (e : ClassEntry) :
    List (String × List ClassEntry) :=
  if (List.lookup k m).isSome then
    m.map (fun p => if p.1 = k then (p.1, p.2 ++ [e]) else p)
  else m ++ [(k, [e])]

/-- The accumulation of `process_class_details` calls over the class-search
entries: each entry is appended to the list of its course number. -/
def build_course_data (entries : List ClassEntry) : List (String × List ClassEntry) :=
  entries.foldl (fun acc e => dictAppendEntry acc e.courseNumber e) []

/-- The key of `sorted(subj_class_data[course_num], key=lambda x: x["sectionNumber"])`. -/
def sectionLe (a b : ClassEntry) : Prop := strLeB a.sectionNumber b.sectionNumber = true

instance : DecidableRel sectionLe :=
  fun a b => inferInstanceAs (Decidable (strLeB a.sectionNumber b.sectionNumber = true))

/-- The ordering of `dict(sorted(d.items()))`: Python compares the
`(key, value)` tuples, and the keys — distinct in a dict — decide. -/
def pairKeyLe {α : Type} (a b : String × α) : Prop := strLeB a.1 b.1 = true

instance {α : Type} : DecidableRel (pairKeyLe (α := α)) :=
  fun a b => inferInstanceAs (Decidable (strLeB a.1 b.1 = true))

/-- The pure tail of `get_subj_course_data`: group the fetched entries by
course number, sort each course's sections by section number, and return the
courses sorted by course code. -/
def get_subj_course_data_pure (entries : List ClassEntry) :
    List (String × List ClassEntry) :=
  ((build_course_data entries).map
      (fun p => (p.1, p.2.insertionSort sectionLe))).insertionSort pairKeyLe

/-- Model of `get_subj_course_data`: the argument is the outcome of the
`try` body (reset, search, and all detail fetches).  Only
`aiohttp.ClientError` is caught (logged, empty dict returned); every other
exception propagates out of the worker. -/
def get_subj_course_data (result : Except PyExc (List ClassEntry)) :
    Except PyExc (List (String × List ClassEntry)) :=
  match result with
  | .ok entries => .ok (get_subj_course_data_pure entries)
  | .error e => if isClientError e then .ok [] else .error e

/-- A subject's slot in `term_course_data`. -/
structure SubjDataEntry where
  subjectName : String
  courses : List (String × List ClassEntry)
deriving DecidableEq, Repr

/-- Statement `term_course_data[code] = {...}` with Python dict semantics. -/
def dictInsertSubj (m : List (String × SubjDataEntry)) (k : String) (v : SubjDataEntry) :
    List (String × SubjDataEntry) :=
  if (List.lookup k m).isSome then
    m.map (fun p => if p.1 = k then (p.1, v) else p)
  else m ++ [(k, v)]

/-- Statement `term_course_data[subject["code"]]["courses"] = course_data`. -/
def dictSetCourses (m : List (String × SubjDataEntry)) (k : String)
    (cs : List (String × List ClassEntry)) : List (String × SubjDataEntry) :=
  m.map (fun p => if p.1 = k then (p.1, { p.2 with courses := cs }) else p)

/-- The `term_course_data` dict assembled by `get_term_course_data`: one slot
per listed subject, in listing order, then each slot's courses filled from
its worker's result. -/
def term_course_dict (subjects : List (String × String))
    (worker : String → List (String × List ClassEntry)) :
    List (String × SubjDataEntry) :=
  let st := subjects.foldl (fun acc s => dictInsertSubj acc s.1 ⟨s.2, []⟩) []
  subjects.foldl (fun acc s => dictSetCourses acc s.1 (worker s.1)) st

/-- Model of `get_term_course_data`: `subjectsFetch` is the outcome of
`get_term_subjects` (only `aiohttp.ClientError` is caught there), `worker c`
the outcome of subject `c`'s worker, and `writeOk` whether writing the JSON
file succeeds.  A worker exception aborts the task group and is converted to
`False` by the surrounding `except Exception`; the `len(term_course_data) == 0`
check fires exactly when no subject was listed. -/
def get_term_course_data (subjectsFetch : Except PyExc (List (String × String)))
    (worker : String → Except PyExc (List (String × List ClassEntry)))
    (writeOk : Bool) : Except PyExc Bool :=
  match subjectsFetch with
  | .error e => if isClientError e then .ok false else .error e
  | .ok subjects =>
    if subjects.any (fun s => !(exceptIsOk (worker s.1))) then .ok false
    else
      let data := term_course_dict subjects
        (fun c => match worker c with | .ok m => m | .error _ => [])
      if data.length = 0 then .ok false
      else if writeOk then .ok true else .ok false

/-! ### `process_term` restriction rewriting (postprocess.py, lines 195-210) -/

/-- Longest split of the input at a `')'`: returns the prefix before the last
`')'` when one exists.  This is the greedy group 2 of `\((.+)\)`. -/
def lastRParenSplit : List Char → Option (List Char)
  | [] => none
  | c :: rest =>
    match lastRParenSplit rest with
    | some b => some (c :: b)
    | none => if c = ')' then some [] else none

/-- Try to match `\s*\((.+)\)` at the start of `l` and return group 2.
`\s*` may cross newlines; `(.+)` may not, so group 2 runs up to the last
`')'` inside the newline-free prefix after the `'('`. -/
def tryNameCode (l : List Char) : Option (List Char) :=
  match l.dropWhile isPySpace with
  | c :: tail =>
    if c = '(' then
      match lastRParenSplit (tail.takeWhile (fun x => x != '\n')) with
      | some b => if b = [] then none else some b
      | none => none
    else none
  | [] => none

/-- Greedy search for the split of `(.+)\s*\((.+)\)` after the first
character: prefers the latest split (longest group 1); group 1 cannot
contain a newline, so the recursion is gated on non-newline characters. -/
def goNameCode : List Char → Option (List Char × List Char)
  | [] => none
  | c :: rest =>
    match (if c = '\n' then none else goNameCode rest) with
    | some (a, b) => some (c :: a, b)
    | none =>
      match tryNameCode (c :: rest) with
      | some b => some ([], b)
      | none => none

/-- Match `re.match(r"(.+)\s*\((.+)\)", s)`, returning `(group 1, group 2)`. -/
def reMatchNameCode (s : String) : Option (String × String) :=
  match s.data with
  | [] => none
  | c :: rest =>
    if c = '\n' then none
    else (goNameCode rest).map (fun ab => (⟨c :: ab.1⟩, ⟨ab.2⟩))

/-- One restriction item in `process_term`: a match of `(.+)\s*\((.+)\)`
is replaced by group 2 (the code); anything else is kept as is. -/
def rewriteRestrictionItem (item : String) : String :=
  match reMatchNameCode item with
  | some (_, code) => code
  | none => item

/-- The restrictions step of `process_term`: every type except
`special_approval` has its item list rewritten; `special_approval` is
skipped (`continue`), leaving its entry untouched. -/
def process_term_restrictions (restrictions : List (String × List String)) :
    List (String × List String) :=
  restrictions.map (fun p =>
    if p.1 = "special_approval" then p
    else (p.1, p.2.map rewriteRestrictionItem))

/-! ### `CodeMapper._generate_rcsid` (postprocess.py, lines 130-162) -/

/-- Greedy search for the split of `(.+), (.+)` after the first character:
prefers the latest `", "` occurrence followed by a non-newline character;
group 1 cannot contain a newline, group 2 runs to the next newline. -/
def goLastFirst : List Char → Option (List Char × List Char)
  | [] => none
  | c :: rest =>
    match (if c = '\n' then none else goLastFirst rest) with
    | some (a, b) => some (c :: a, b)
    | none =>
      if c = ',' then
        match rest with
        | ' ' :: b :: bs =>
          if b = '\n' then none
          else some ([], b :: bs.takeWhile (fun x => x != '\n'))
        | _ => none
      else none

/-- Match `re.match(r"(.+), (.+)", s)`, returning `(group 1, group 2)`. -/
def reMatchLastFirst (s : String) : Option (String × String) :=
  match s.data with
  | [] => none
  | c :: rest =>
    if c = '\n' then none
    else (goLastFirst rest).map (fun ab => (⟨c :: ab.1⟩, ⟨ab.2⟩))

/-- The last-name loop: collect lowercased alphabetic characters, stopping as
soon as five have been collected. -/
def collectAlpha5 (acc : List Char) : List Char → List Char
  | [] => acc
  | c :: rest =>
    let acc2 := if c.isAlpha then acc ++ [c.toLower] else acc
    if acc2.length = 5 then acc2 else collectAlpha5 acc2 rest

/-- The first-name loop: the first alphabetic character, lowercased. -/
def firstAlphaLower : List Char → List Char
  | [] => []
  | c :: rest => if c.isAlpha then [c.toLower] else firstAlphaLower rest

/-- Fallback `re.sub(r"\s+", "", instructor_name).lower()[:8]`. -/
def rcsidFallback (s : String) : String :=
  ⟨((s.data.filter (fun c => !(isPySpace c))).map Char.toLower).take 8⟩

/-- The `while rcsid in self.instructors` loop: try `base`, then `base ++ "1"`,
`base ++ "2"`, … .  The fuel is `|instructors| + 1`; since the successive
candidates are distinct, the Python loop always exits within that many
iterations, so the fuel-exhaustion branch is unreachable. -/
def uniqLoop (keys : List String) (base : String) : String → Nat → Nat → String
  | rcsid, _, 0 => rcsid
  | rcsid, counter, fuel + 1 =>
    if rcsid ∈ keys then uniqLoop keys base (base ++ toString counter) (counter + 1) fuel
    else rcsid

/-- Model of `CodeMapper._generate_rcsid`: split the display name as
`"<Last>, <First>"` (fallback when the pattern does not match), build the
base identifier from up to five alphabetic characters of the last name and
the first alphabetic character of the first name, then uniquify against the
known instructor keys. -/
def generate_rcsid (instructors : List String) (instructorName : String) : String :=
  match reMatchLastFirst instructorName with
  | none => rcsidFallback instructorName
  | some (lastName, firstName) =>
    let base : String := ⟨collectAlpha5 [] lastName.data ++ firstAlphaLower firstName.data⟩
    uniqLoop instructors base base 1 (instructors.length + 1)

/-! ### Spec-side description of item collection (for C1) -/

/-- Spec-side restatement of the inner collecting loop: accumulate span text
into a buffer, left-stripping only the first piece and joining subsequent
pieces with `","`; emit the stripped buffer when it closes a parenthesis pair
— or, under the Special Approvals header, on every span.  Returns the emitted
items in order. -/
def collectSpecItems (isSpecial : Bool) : String → List (Option String) → List String
  | _, [] => []
  | buf, none :: rest => collectSpecItems isSpecial buf rest
  | buf, some sp :: rest =>
    let buf' := if buf = "" then lstrip sp else buf ++ "," ++ sp
    if isSpecial ∨ parenClosed buf' then strip buf' :: collectSpecItems isSpecial "" rest
    else collectSpecItems isSpecial buf' rest

/-- Guard for the collection description: no intermediate buffer value matches
a header pattern (which would make the parser abandon the buffer and
re-process the span as a header). -/
def noHeaderDuring (isSpecial : Bool) : String → List (Option String) → Bool
  | _, [] => true
  | buf, none :: rest => noHeaderDuring isSpecial buf rest
  | buf, some sp :: rest =>
    let buf' := if buf = "" then lstrip sp else buf ++ "," ++ sp
    if (matchHeaderPatterns buf').isSome then false
    else if isSpecial ∨ parenClosed buf' then noHeaderDuring isSpecial "" rest
    else noHeaderDuring isSpecial buf' rest

theorem appendAt_keys (st : RState) (k v : String) :
    (appendAt st k v).map Prod.fst = st.map Prod.fst := by
  induction st with
  | nil => rfl
  | cons p t ih =>
    show ((if p.1 = k then (p.1, p.2 ++ [v]) else p).1) :: (appendAt t k v).map Prod.fst
        = p.1 :: t.map Prod.fst
    rw [ih]
    congr 1
    split <;> rfl

theorem parseRestrictions_keys :
    ∀ (spans : List (Option String)) (mode : Option (String × String)) (st m : RState),
      parseRestrictions spans mode st = .ok m → m.map Prod.fst = st.map Prod.fst := by
  intro spans
  induction spans with
  | nil =>
    intro mode st m h
    simp only [parseRestrictions, Except.ok.injEq] at h
    rw [h]
  | cons sp rest ih =>
    intro mode st m h
    cases sp with
    | none => exact ih mode st m h
    | some s =>
      cases mode with
      | none =>
        simp only [parseRestrictions] at h
        split at h
        · exact absurd h (by simp)
        · exact ih _ st m h
      | some kb =>
        obtain ⟨key, buf⟩ := kb
        simp only [parseRestrictions] at h
        by_cases hh :
            (matchHeaderPatterns (if buf = "" then lstrip s else buf ++ "," ++ s)).isSome = true
        · rw [if_pos hh] at h
          cases ho : outerMode st s with
          | error e => rw [ho] at h; exact absurd h (by simp)
          | ok mode2 => rw [ho] at h; exact ih _ st m h
        · rw [if_neg hh] at h
          by_cases he :
              key = "special_approval"
                ∨ parenClosed (if buf = "" then lstrip s else buf ++ "," ++ s) = true
          · rw [if_pos he] at h
            rw [ih _ _ m h, appendAt_keys]
          · rw [if_neg he] at h
            exact ih _ _ m h

theorem parseRestrictions_collect (key : String) :
    ∀ (spans : List (Option String)) (buf : String) (st : RState),
      noHeaderDuring (key = "special_approval") buf spans = true →
      parseRestrictions spans (some (key, buf)) st =
        .ok ((collectSpecItems (key = "special_approval") buf spans).foldl
              (fun s it => appendAt s key it) st) := by
  intro spans
  induction spans with
  | nil => intro buf st _; rfl
  | cons sp rest ih =>
    intro buf st hnh
    cases sp with
    | none => exact ih buf st hnh
    | some s =>
      simp only [parseRestrictions, collectSpecItems, noHeaderDuring] at hnh ⊢
      by_cases hh :
          (matchHeaderPatterns (if buf = "" then lstrip s else buf ++ "," ++ s)).isSome = true
      · rw [if_pos hh] at hnh
        exact absurd hnh (by simp)
      · rw [if_neg hh] at hnh ⊢
        by_cases he :
            key = "special_approval"
              ∨ parenClosed (if buf = "" then lstrip s else buf ++ "," ++ s) = true
        · have heB :
              decide (key = "special_approval") = true
                ∨ parenClosed (if buf = "" then lstrip s else buf ++ "," ++ s) = true := by
            simpa using he
          rw [if_pos he, if_pos heB] at *
          rw [List.foldl_cons]
          exact ih _ _ hnh
        · have heB :
              ¬(decide (key = "special_approval") = true
                ∨ parenClosed (if buf = "" then lstrip s else buf ++ "," ++ s) = true) := by
            simpa using he
          rw [if_neg he, if_neg heB]
          rw [if_neg heB] at hnh
          exact ih _ _ hnh

/-! ### Decimal length of `Nat.repr` (for the six-character property of C7) -/

theorem toDigitsCore_len_log (f : Nat) :
    ∀ n : Nat, n < 10 ^ f → 0 < n →
      (Nat.toDigitsCore 10 f n []).length = Nat.log 10 n + 1 := by
  induction f with
  | zero => intro n hf hn; simp at hf; omega
  | succ f ih =>
    intro n hf hn
    by_cases hdiv : n / 10 = 0
    · have hlt : n < 10 := by omega
      have hlog : Nat.log 10 n = 0 := Nat.log_eq_zero_iff.mpr (Or.inl hlt)
      simp [Nat.toDigitsCore, hdiv, hlog]
    · have h10 : 10 ≤ n := by omega
      have hstep : Nat.toDigitsCore 10 (f + 1) n [] =
          Nat.toDigitsCore 10 f (n / 10) [Nat.digitChar (n % 10)] := by
        simp [Nat.toDigitsCore, hdiv]
      rw [hstep, Nat.toDigitsCore_lens_eq]
      rw [ih (n / 10) (Nat.nat_repr_len_aux n 10 f (by norm_num) hf) (by omega)]
      rw [Nat.log_div_base]
      have hpos : 0 < Nat.log 10 n := Nat.log_pos (by norm_num) h10
      omega

theorem natRepr_len_four (n : Nat) (h1 : 1000 ≤ n) (h2 : n ≤ 9999) :
    (Nat.repr n).length = 4 := by
  have hlt : n < 10 ^ (n + 1) :=
    lt_of_lt_of_le (Nat.lt_pow_self (by norm_num) n)
      (Nat.pow_le_pow_right (by norm_num) (Nat.le_succ n))
  have hlen := toDigitsCore_len_log (n + 1) n hlt (by omega)
  have hlog : Nat.log 10 n = 3 :=
    Nat.log_eq_of_pow_le_of_lt_pow (le_trans (by norm_num) h1)
      (lt_of_le_of_lt h2 (by norm_num))
  have hrepr : (Nat.repr n).length = (Nat.toDigitsCore 10 (n + 1) n []).length := rfl
  omega

theorem intRepr_len_four (yi : Int) (h1 : 1000 ≤ yi) (h2 : yi ≤ 9999) :
    (Int.repr yi).length = 4 := by
  obtain ⟨m, rfl⟩ : ∃ m : Nat, yi = (m : Int) :=
    ⟨yi.toNat, (Int.toNat_of_nonneg (by omega)).symm⟩
  have h1n : 1000 ≤ m := by omega
  have h2n : m ≤ 9999 := by omega
  have hr : Int.repr (m : Int) = Nat.repr m := rfl
  rw [hr]
  exact natRepr_len_four m h1n h2n

theorem seasonMapGet_eval (yi : Int) :
    seasonMapGet "spring" yi = yi.repr ++ "01"
      ∧ seasonMapGet "summer" yi = yi.repr ++ "05"
      ∧ seasonMapGet "fall" yi = yi.repr ++ "09" := by
  refine ⟨?_, ?_, ?_⟩ <;> simp [seasonMapGet]

theorem get_term_code_in_range (y : PyYear) (yi : Int) (s : String)
    (hy : yearInt y = some yi) (h1 : 1000 ≤ yi) (h2 : yi ≤ 9999) :
    get_term_code y (.str s) = seasonMapGet (strip (lowerStr s)) yi := by
  cases y with
  | pynone => exact absurd hy (by simp [yearInt])
  | int n =>
    show (match yearInt (.int n) with
      | none => ""
      | some yi2 =>
        if yi2 < 1000 ∨ yi2 > 9999 then ""
        else seasonMapGet (strip (lowerStr s)) yi2) = seasonMapGet (strip (lowerStr s)) yi
    rw [hy]
    exact if_neg (by omega)
  | str t =>
    show (match yearInt (.str t) with
      | none => ""
      | some yi2 =>
        if yi2 < 1000 ∨ yi2 > 9999 then ""
        else seasonMapGet (strip (lowerStr s)) yi2) = seasonMapGet (strip (lowerStr s)) yi
    rw [hy]
    exact if_neg (by omega)

/-- Claim C7: (corrected claim, amended part).  For year inputs whose Python
`int(year)` value `yi` lies in `[1000, 9999]` and a season that, lowercased
and stripped, is `spring`/`summer`/`fall`, `get_term_code` returns the
six-character string `str(int(year))` followed by `"01"`/`"05"`/`"09"`;
every other input yields `""`.  (The original claim said `str(year)`, which
fails for non-canonical numeric strings such as `"02023"`.) -/
theorem claim_C7_get_term_code :
    (∀ (y : PyYear) (yi : Int) (s : String),
        yearInt y = some yi → 1000 ≤ yi → yi ≤ 9999 →
        (strip (lowerStr s) = "spring" →
            get_term_code y (.str s) = yi.repr ++ "01"
              ∧ (get_term_code y (.str s)).length = 6)
          ∧ (strip (lowerStr s) = "summer" →
              get_term_code y (.str s) = yi.repr ++ "05"
                ∧ (get_term_code y (.str s)).length = 6)
          ∧ (strip (lowerStr s) = "fall" →
              get_term_code y (.str s) = yi.repr ++ "09"
                ∧ (get_term_code y (.str s)).length = 6))
    ∧ (∀ (y : PyYear) (sea : PySeason),
        (¬ ∃ (yi : Int) (s : String), sea = .str s ∧ yearInt y = some yi
            ∧ 1000 ≤ yi ∧ yi ≤ 9999
            ∧ strip (lowerStr s) ∈ (["spring", "summer", "fall"] : List String)) →
        get_term_code y sea = "") := by
  constructor
  · intro y yi s hy h1 h2
    have hcode := get_term_code_in_range y yi s hy h1 h2
    have hev := seasonMapGet_eval yi
    have hlen := intRepr_len_four yi h1 h2
    refine ⟨fun hs => ?_, fun hs => ?_, fun hs => ?_⟩ <;> rw [hcode, hs]
    · exact ⟨hev.1, by rw [hev.1, String.length_append, hlen]; rfl⟩
    · exact ⟨hev.2.1, by rw [hev.2.1, String.length_append, hlen]; rfl⟩
    · exact ⟨hev.2.2, by rw [hev.2.2, String.length_append, hlen]; rfl⟩
  · intro y sea hno
    cases sea with
    | pynone => cases y <;> rfl
    | nonStr => cases y <;> rfl
    | str t =>
      have hmain : ∀ (yv : Option Int),
          yearInt y = yv →
          (match yv with
            | none => ""
            | some yi2 =>
              if yi2 < 1000 ∨ yi2 > 9999 then ""
              else seasonMapGet (strip (lowerStr t)) yi2) = "" := by
        intro yv hyv
        cases yv with
        | none => rfl
        | some yi =>
          show (if yi < 1000 ∨ yi > 9999 then ""
            else seasonMapGet (strip (lowerStr t)) yi) = ""
          by_cases hr : yi < 1000 ∨ yi > 9999
          · exact if_pos hr
          · rw [if_neg hr]
            have hnm : strip (lowerStr t) ∉ (["spring", "summer", "fall"] : List String) :=
              fun hm => hno ⟨yi, t, rfl, hyv, by omega, by omega, hm⟩
            simp only [seasonMapGet]
            rw [if_neg (fun hf => hnm (by rw [hf]; decide)),
              if_neg (fun hf => hnm (by rw [hf]; decide)),
              if_neg (fun hf => hnm (by rw [hf]; decide))]
      cases y with
      | pynone => rfl
      | int n => exact hmain (yearInt (.int n)) rfl
      | str u => exact hmain (yearInt (.str u)) rfl

/-- Claim C7: counterexample.  The claim computes the result as
`str(year) + "09"`, but for the in-range numeric string `"02023"` the code
returns `str(int(year)) + "09" = "202309"`, not `"02023" + "09" = "0202309"`. -/
theorem claim_C7_counterexample :
    get_term_code (.str "02023") (.str "fall") = "202309"
      ∧ (("02023" : String) ++ "09") = "0202309"
      ∧ ("202309" : String) ≠ "0202309" := by
  refine ⟨by decide, by decide, by decide⟩

/-- Claim C7: witness: a concrete instantiation of the amended theorem. -/
theorem claim_C7_witness :
    get_term_code (.int 2023) (.str "Fall") = Int.repr 2023 ++ "09" := by
  have h := (claim_C7_get_term_code.1 (.int 2023) 2023 "Fall" rfl (by norm_num) (by norm_num))
  exact (h.2.2 (by decide)).1

/-- Claim C10: (confirmed).  `get_class_description` returns `""` when the
description section is missing, and returns Python `None` (no string at all)
when the section is present but every line is blank after stripping. -/
theorem claim_C10_get_class_description :
    get_class_description none = some ""
      ∧ ∀ lines : List String, (∀ l ∈ lines, strip l = "") →
          get_class_description (some lines) = none := by
  refine ⟨rfl, fun lines h => ?_⟩
  simp only [get_class_description]
  rw [List.find?_eq_none]
  intro x hx
  obtain ⟨l, hl, rfl⟩ := List.mem_map.mp hx
  simp [h l hl]

/-- Claim C10: witness. -/
theorem claim_C10_witness : get_class_description (some [" ", "\t"]) = none :=
  claim_C10_get_class_description.2 [" ", "\t"] (by decide)

/-- Claim C2: (confirmed).  Whenever `get_class_restrictions` returns a map, its
key list is exactly the pre-populated known keys — every base type plus
`not_<type>` for all but `special_approval` — in dict order; items are only
appended under these keys and no other key is ever created. -/
theorem claim_C2_restriction_keys (spans : List (Option String)) (m : RState)
    (h : get_class_restrictions spans = .ok m) :
    m.map Prod.fst =
      ["campus", "not_campus", "classification", "not_classification", "college",
       "not_college", "degree", "not_degree", "department", "not_department",
       "level", "not_level", "major", "not_major", "minor", "not_minor",
       "special_approval"] := by
  rw [parseRestrictions_keys spans none init_restrictions_data m h]
  decide

/-- Claim C2: witness. -/
theorem claim_C2_witness :
    init_restrictions_data.map Prod.fst =
      ["campus", "not_campus", "classification", "not_classification", "college",
       "not_college", "degree", "not_degree", "department", "not_department",
       "level", "not_level", "major", "not_major", "minor", "not_minor",
       "special_approval"] :=
  claim_C2_restriction_keys [] init_restrictions_data rfl

/-- Claim C1: (corrected claim, amended part).  The COMD span sequence produces
exactly `major ↦ ["Communication,Media, & Design (COMD)"]` with every other
list empty; and in general, while collecting under a header, the first span
is left-stripped, later spans are appended preceded by a single comma, and
the stripped buffer is emitted when it closes a parenthesis pair **or**,
under the Special Approvals header, on every span (the latter exception is
the amendment). -/
theorem claim_C1_restrictions :
    get_class_restrictions
        [some "Must be enrolled in one of the following Majors:", some "Communication",
         some "Media", some " & Design (COMD)"]
      = .ok [("campus", []), ("not_campus", []), ("classification", []),
             ("not_classification", []), ("college", []), ("not_college", []),
             ("degree", []), ("not_degree", []), ("department", []),
             ("not_department", []), ("level", []), ("not_level", []),
             ("major", ["Communication,Media, & Design (COMD)"]), ("not_major", []),
             ("minor", []), ("not_minor", []), ("special_approval", [])]
    ∧ (∀ (key buf : String) (spans : List (Option String)) (st : RState),
        noHeaderDuring (key = "special_approval") buf spans = true →
        parseRestrictions spans (some (key, buf)) st =
          .ok ((collectSpecItems (key = "special_approval") buf spans).foldl
                (fun acc it => appendAt acc key it) st)) :=
  ⟨by decide, fun key buf spans st h => parseRestrictions_collect key spans buf st h⟩

/-- Claim C1: counterexample.  Under the Special Approvals header a buffer is
emitted even though it does not match `.*\(.*\)`, refuting the claim that
the buffer is emitted exactly when it matches that pattern. -/
theorem claim_C1_counterexample :
    get_class_restrictions [some "Special Approvals:", some "Instructor Approval"]
        = .ok [("campus", []), ("not_campus", []), ("classification", []),
               ("not_classification", []), ("college", []), ("not_college", []),
               ("degree", []), ("not_degree", []), ("department", []),
               ("not_department", []), ("level", []), ("not_level", []),
               ("major", []), ("not_major", []), ("minor", []), ("not_minor", []),
               ("special_approval", ["Instructor Approval"])]
      ∧ parenClosed "Instructor Approval" = false := by
  exact ⟨by decide, by decide⟩

/-- Claim C1: witness: the collection characterization applied to one concrete
span under the `level` key. -/
theorem claim_C1_witness :
    parseRestrictions [some "Graduate (GR)"] (some ("level", "")) init_restrictions_data
      = .ok ((collectSpecItems ("level" = "special_approval") "" [some "Graduate (GR)"]).foldl
              (fun acc it => appendAt acc "level" it) init_restrictions_data) :=
  claim_C1_restrictions.2 "level" "" [some "Graduate (GR)"] init_restrictions_data (by decide)

/-- Claim C5: (corrected claim, amended part).  `retry_get` re-raises a
non-matching exception after the first attempt; when every attempt fails
with a matching exception (`asyncio.TimeoutError` or any
`aiohttp.ClientError`, which includes both 4xx and 5xx responses) it stops
after 3 attempts and raises `RetryError`; a success at attempt `k ≤ 3`
after matching failures returns that response after exactly `k` attempts. -/
theorem claim_C5_retry_get :
    (∀ (attempts : Nat → Except PyExc String) (e : PyExc),
        retryPredicate e = false → attempts 1 = .error e →
        retry_get attempts = (.error e, 1))
    ∧ (∀ attempts : Nat → Except PyExc String,
        (∀ n, 1 ≤ n → n ≤ 3 → ∃ e, attempts n = .error e ∧ retryPredicate e = true) →
        retry_get attempts = (.error .retryError, 3))
    ∧ (∀ (attempts : Nat → Except PyExc String) (k : Nat) (s : String),
        1 ≤ k → k ≤ 3 → attempts k = .ok s →
        (∀ j, 1 ≤ j → j < k → ∃ e, attempts j = .error e ∧ retryPredicate e = true) →
        retry_get attempts = (.ok s, k)) := by
  refine ⟨?_, ?_, ?_⟩
  · intro attempts e hp h1
    simp [retry_get, retryGo, h1, hp]
  · intro attempts h
    obtain ⟨e1, he1, hp1⟩ := h 1 (by norm_num) (by norm_num)
    obtain ⟨e2, he2, hp2⟩ := h 2 (by norm_num) (by norm_num)
    obtain ⟨e3, he3, hp3⟩ := h 3 (by norm_num) (by norm_num)
    simp [retry_get, retryGo, he1, hp1, he2, hp2, he3, hp3]
  · intro attempts k s hk1 hk3 hok hprev
    interval_cases k
    · simp [retry_get, retryGo, hok]
    · obtain ⟨e1, he1, hp1⟩ := hprev 1 (by norm_num) (by norm_num)
      simp [retry_get, retryGo, he1, hp1, hok]
    · obtain ⟨e1, he1, hp1⟩ := hprev 1 (by norm_num) (by norm_num)
      obtain ⟨e2, he2, hp2⟩ := hprev 2 (by norm_num) (by norm_num)
      simp [retry_get, retryGo, he1, hp1, he2, hp2, hok]

/-- Claim C5: counterexample.  A request that always fails with HTTP 404 — an
`aiohttp.ClientResponseError`, hence an `aiohttp.ClientError` matched by the
retry predicate — is attempted 3 times (not raised immediately) and then
surfaces as `RetryError`, refuting "raises immediately — without any retry —
on 4xx". -/
theorem claim_C5_counterexample :
    retry_get (fun _ => .error (PyExc.clientResponseError 404))
        = (.error PyExc.retryError, 3)
      ∧ (3 : Nat) ≠ 1 := ⟨rfl, by decide⟩

/-- Claim C5: witness. -/
theorem claim_C5_witness :
    retry_get (fun _ => .error PyExc.timeoutError) = (.error PyExc.retryError, 3) :=
  claim_C5_retry_get.2.1 (fun _ => .error .timeoutError)
    (fun _ _ _ => ⟨.timeoutError, rfl, rfl⟩)

/-- Claim C3: (corrected claim, amended part).  The subject worker catches only
`aiohttp.ClientError` (logging it and returning an empty map); any other
exception propagates out of the worker, and a propagating worker exception
makes the term driver return failure instead of continuing. -/
theorem claim_C3_worker_failure :
    (∀ e : PyExc, isClientError e = true →
        get_subj_course_data (.error e) = .ok [])
    ∧ (∀ e : PyExc, isClientError e = false →
        get_subj_course_data (.error e) = .error e)
    ∧ (∀ (subjects : List (String × String))
          (worker : String → Except PyExc (List (String × List ClassEntry)))
          (writeOk : Bool) (s0 : String × String),
        s0 ∈ subjects → exceptIsOk (worker s0.1) = false →
        get_term_course_data (.ok subjects) worker writeOk = .ok false) := by
  refine ⟨?_, ?_, ?_⟩
  · intro e he; simp [get_subj_course_data, he]
  · intro e he; simp [get_subj_course_data, he]
  · intro subjects worker writeOk s0 hmem hfail
    have hany : subjects.any (fun s => !(exceptIsOk (worker s.1))) = true :=
      List.any_eq_true.mpr ⟨s0, hmem, by rw [hfail]; rfl⟩
    simp [get_term_course_data, hany]

/-- Claim C3: counterexample.  A `json.JSONDecodeError` raised during the
subject's work is not caught: the worker re-raises it rather than returning
the empty map, refuting "any exception … is caught". -/
theorem claim_C3_counterexample :
    get_subj_course_data (.error PyExc.jsonDecodeError) = .error PyExc.jsonDecodeError
      ∧ get_subj_course_data (.error PyExc.jsonDecodeError)
          ≠ (.ok [] : Except PyExc (List (String × List ClassEntry))) := by
  exact ⟨rfl, by decide⟩

/-- Claim C3: witness. -/
theorem claim_C3_witness :
    get_subj_course_data (.error PyExc.clientError) = .ok [] :=
  claim_C3_worker_failure.1 PyExc.clientError rfl

/-- Claim C4: (corrected claim, amended part).  The term driver succeeds exactly
when the subjects fetch succeeded with a non-empty listing, no subject worker
raised, and the output file was written — regardless of whether any subject
yielded a non-empty course map. -/
theorem claim_C4_term_driver (subjectsFetch : Except PyExc (List (String × String)))
    (worker : String → Except PyExc (List (String × List ClassEntry)))
    (writeOk : Bool) :
    get_term_course_data subjectsFetch worker writeOk = .ok true ↔
      ∃ subjects, subjectsFetch = .ok subjects ∧ subjects ≠ []
        ∧ (∀ s ∈ subjects, exceptIsOk (worker s.1) = true) ∧ writeOk = true := by
  cases subjectsFetch with
  | error e =>
    simp only [get_term_course_data]
    constructor
    · intro h
      by_cases hc : isClientError e = true
      · rw [if_pos hc] at h
        exact absurd h (by simp)
      · rw [if_neg hc] at h
        exact absurd h (by simp)
    · rintro ⟨subs, heq, _⟩
      exact Except.noConfusion heq
  | ok subjects =>
    simp only [get_term_course_data]
    by_cases hany : subjects.any (fun s => !(exceptIsOk (worker s.1))) = true
    · rw [if_pos hany]
      constructor
      · intro h
        injection h with h
        exact absurd h (by decide)
      · rintro ⟨subs, heq, _, hall, _⟩
        injection heq with heq
        subst heq
        obtain ⟨s, hs, hsp⟩ := List.any_eq_true.mp hany
        have := hall s hs
        simp [this] at hsp
    · rw [if_neg hany]
      by_cases hsub : subjects = []
      · subst hsub
        simp [term_course_dict]
      · have hlen : ¬ (term_course_dict subjects
            (fun c => match worker c with | .ok m => m | .error _ => [])).length = 0 := by
          obtain ⟨s, rest, rfl⟩ := List.exists_cons_of_ne_nil hsub
          have hmono : ∀ (l : List (String × String)) (st : List (String × SubjDataEntry)),
              st.length ≤ (l.foldl (fun acc x => dictInsertSubj acc x.1 ⟨x.2, []⟩) st).length := by
            intro l
            induction l with
            | nil => intro st; exact le_refl _
            | cons x xs ih =>
              intro st
              refine le_trans ?_ (ih (dictInsertSubj st x.1 ⟨x.2, []⟩))
              unfold dictInsertSubj
              split
              · rw [List.length_map]
              · rw [List.length_append]; omega
          have hsetlen : ∀ (l : List (String × String)) (st : List (String × SubjDataEntry))
              (w : String → List (String × List ClassEntry)),
              (l.foldl (fun acc x => dictSetCourses acc x.1 (w x.1)) st).length = st.length := by
            intro l
            induction l with
            | nil => intro st w; rfl
            | cons x xs ih =>
              intro st w
              rw [List.foldl_cons, ih (dictSetCourses st x.1 (w x.1)) w]
              unfold dictSetCourses
              rw [List.length_map]
          set wf : String → List (String × List ClassEntry) :=
            fun c => match worker c with | .ok m => m | .error _ => [] with hwf
          show ¬ (List.foldl (fun acc x => dictSetCourses acc x.1 (wf x.1))
              (List.foldl (fun acc x => dictInsertSubj acc x.1 ⟨x.2, []⟩) [] (s :: rest))
              (s :: rest)).length = 0
          rw [hsetlen]
          have h1 := hmono rest (dictInsertSubj [] s.1 ⟨s.2, []⟩)
          have h2 : (dictInsertSubj ([] : List (String × SubjDataEntry)) s.1 ⟨s.2, []⟩).length = 1 := rfl
          simp only [List.foldl_cons]
          omega
        rw [if_neg hlen]
        have hall : ∀ s ∈ subjects, exceptIsOk (worker s.1) = true := by
          intro s hs
          by_contra hne
          rw [Bool.not_eq_true] at hne
          exact hany (List.any_eq_true.mpr ⟨s, hs, by rw [hne]; rfl⟩)
        cases writeOk with
        | true =>
          rw [if_pos rfl]
          constructor
          · intro _
            exact ⟨subjects, rfl, hsub, hall, rfl⟩
          · intro _; rfl
        | false =>
          rw [if_neg (by decide)]
          constructor
          · intro h
            injection h with h
            exact absurd h (by decide)
          · rintro ⟨subs, heq, _, _, hw⟩
            exact absurd hw (by decide)

/-- Claim C4: counterexample.  One listed subject whose worker returns an empty
course map, with a successful write: the driver reports success, refuting
"when every subject worker returns an empty map, the term driver reports
failure". -/
theorem claim_C4_counterexample :
    get_term_course_data (.ok [("A", "ASub")]) (fun _ => .ok []) true = .ok true
      ∧ ((.ok true : Except PyExc Bool) ≠ .ok false) := by
  exact ⟨by decide, by decide⟩

/-! ### Bridge between the executable comparator and the String order -/

theorem charListLtB_iff_lex :
    ∀ a b : List Char, charListLtB a b = true ↔ List.Lex (· < ·) a b := by
  intro a
  induction a with
  | nil =>
    intro b
    cases b with
    | nil =>
      exact iff_of_false (show ¬ charListLtB [] [] = true by decide) (fun h => by cases h)
    | cons c cs =>
      exact iff_of_true (show charListLtB [] (c :: cs) = true from rfl) List.Lex.nil
  | cons a as ih =>
    intro b
    cases b with
    | nil =>
      refine iff_of_false ?_ (fun h => by cases h)
      simp [charListLtB]
    | cons b bs =>
      by_cases h1 : a < b
      · exact iff_of_true (by simp [charListLtB, h1]) (List.Lex.rel h1)
      · by_cases h2 : b < a
        · refine iff_of_false (by simp [charListLtB, h1, h2]) ?_
          intro h
          cases h with
          | rel hr => exact h1 hr
          | cons hl => exact absurd h2 (lt_irrefl a)
        · have hab : a = b := le_antisymm (not_lt.mp h2) (not_lt.mp h1)
          subst hab
          have hstep : charListLtB (a :: as) (a :: bs) = charListLtB as bs := by
            simp [charListLtB]
          rw [hstep, List.Lex.cons_iff]
          exact ih bs

theorem strLeB_iff_le (a b : String) : strLeB a b = true ↔ a ≤ b := by
  rw [← not_lt]
  constructor
  · intro h hlt
    have hlex : List.Lex (· < ·) b.data a.data := String.lt_iff_toList_lt.mp hlt
    have hc := (charListLtB_iff_lex b.data a.data).mpr hlex
    simp [strLeB, hc] at h
  · intro h
    simp only [strLeB, Bool.not_eq_true']
    rw [Bool.eq_false_iff]
    intro hc
    exact h (String.lt_iff_toList_lt.mpr ((charListLtB_iff_lex b.data a.data).mp hc))

/-! ### Dict-shaped fold lemmas (for C6) -/

theorem lookup_isSome_iff_mem {β : Type} (k : String) (m : List (String × β)) :
    (List.lookup k m).isSome = true ↔ k ∈ m.map Prod.fst := by
  induction m with
  | nil => simp [List.lookup]
  | cons p t ih =>
    by_cases h : k = p.1
    · simp [List.lookup, h]
    · have hb : (k == p.1) = false := beq_eq_false_iff_ne.mpr h
      simp [List.lookup, hb, ih, h]

theorem dictSetCourses_keys (m : List (String × SubjDataEntry)) (k : String)
    (cs : List (String × List ClassEntry)) :
    (dictSetCourses m k cs).map Prod.fst = m.map Prod.fst := by
  induction m with
  | nil => rfl
  | cons p t ih =>
    show ((if p.1 = k then (p.1, { p.2 with courses := cs }) else p).1)
        :: (dictSetCourses t k cs).map Prod.fst = p.1 :: t.map Prod.fst
    rw [ih]
    congr 1
    split <;> rfl

theorem foldl_setCourses_keys (w : String → List (String × List ClassEntry)) :
    ∀ (l : List (String × String)) (st : List (String × SubjDataEntry)),
      (l.foldl (fun acc s => dictSetCourses acc s.1 (w s.1)) st).map Prod.fst
        = st.map Prod.fst := by
  intro l
  induction l with
  | nil => intro st; rfl
  | cons s rest ih =>
    intro st
    rw [List.foldl_cons, ih (dictSetCourses st s.1 (w s.1)), dictSetCourses_keys]

theorem foldl_insertSubj_keys (f : (String × String) → SubjDataEntry) :
    ∀ (l : List (String × String)) (st : List (String × SubjDataEntry)),
      (st.map Prod.fst ++ l.map Prod.fst).Nodup →
      (l.foldl (fun acc s => dictInsertSubj acc s.1 (f s)) st).map Prod.fst
        = st.map Prod.fst ++ l.map Prod.fst := by
  intro l
  induction l with
  | nil => intro st _; simp
  | cons s rest ih =>
    intro st h
    have hs1 : s.1 ∉ st.map Prod.fst := by
      rw [List.nodup_append] at h
      exact fun hmem => (h.2.2 hmem) (by simp)
    have hins : dictInsertSubj st s.1 (f s) = st ++ [(s.1, f s)] := by
      unfold dictInsertSubj
      rw [if_neg]
      intro hsome
      exact hs1 ((lookup_isSome_iff_mem s.1 st).mp hsome)
    rw [List.foldl_cons, hins, ih (st ++ [(s.1, f s)]) ?hnodup]
    · simp
    case hnodup =>
      simp only [List.map_append, List.map_cons] at h ⊢
      simpa [List.append_assoc] using h

/-- Claim C6: (corrected claim, amended part).  In the term snapshot, every
course's section list is ascending by section number and every subject's
course keys are ascending, while the top-level subject keys appear in the
order the subjects listing returned them (not sorted by the code). -/
theorem claim_C6_snapshot_order :
    (∀ (entries : List ClassEntry) (c : String) (l : List ClassEntry),
        (c, l) ∈ get_subj_course_data_pure entries →
        List.Sorted (fun x y : ClassEntry => x.sectionNumber ≤ y.sectionNumber) l)
    ∧ (∀ entries : List ClassEntry,
        List.Sorted (· ≤ ·) ((get_subj_course_data_pure entries).map Prod.fst))
    ∧ (∀ (subjects : List (String × String))
        (worker : String → List (String × List ClassEntry)),
        (subjects.map Prod.fst).Nodup →
        (term_course_dict subjects worker).map Prod.fst = subjects.map Prod.fst) := by
  letI : IsTotal ClassEntry sectionLe := ⟨fun x y => by
    rcases le_total x.sectionNumber y.sectionNumber with h | h
    · exact Or.inl ((strLeB_iff_le _ _).mpr h)
    · exact Or.inr ((strLeB_iff_le _ _).mpr h)⟩
  letI : IsTrans ClassEntry sectionLe := ⟨fun x y z h1 h2 =>
    (strLeB_iff_le _ _).mpr
      (le_trans ((strLeB_iff_le _ _).mp h1) ((strLeB_iff_le _ _).mp h2))⟩
  letI : IsTotal (String × List ClassEntry) pairKeyLe := ⟨fun x y => by
    rcases le_total x.1 y.1 with h | h
    · exact Or.inl ((strLeB_iff_le _ _).mpr h)
    · exact Or.inr ((strLeB_iff_le _ _).mpr h)⟩
  letI : IsTrans (String × List ClassEntry) pairKeyLe := ⟨fun x y z h1 h2 =>
    (strLeB_iff_le _ _).mpr
      (le_trans ((strLeB_iff_le _ _).mp h1) ((strLeB_iff_le _ _).mp h2))⟩
  refine ⟨?_, ?_, ?_⟩
  · intro entries c l hmem
    have hmem2 : (c, l) ∈ (build_course_data entries).map
        (fun p => (p.1, p.2.insertionSort sectionLe)) :=
      (List.perm_insertionSort pairKeyLe _).mem_iff.mp hmem
    obtain ⟨p, hp, heq⟩ := List.mem_map.mp hmem2
    obtain ⟨rfl, rfl⟩ := Prod.mk.injEq .. |>.mp heq
    exact (List.sorted_insertionSort sectionLe p.2).imp
      (fun hab => (strLeB_iff_le _ _).mp hab)
  · intro entries
    have hs : List.Sorted pairKeyLe (get_subj_course_data_pure entries) :=
      List.sorted_insertionSort pairKeyLe _
    rw [List.Sorted, List.pairwise_map]
    exact hs.imp (fun hab => (strLeB_iff_le _ _).mp hab)
  · intro subjects worker hnd
    show (List.foldl (fun acc s => dictSetCourses acc s.1 (worker s.1))
        (List.foldl (fun acc s => dictInsertSubj acc s.1 ⟨s.2, []⟩) [] subjects)
        subjects).map Prod.fst = subjects.map Prod.fst
    rw [foldl_setCourses_keys]
    have := foldl_insertSubj_keys (fun s => ⟨s.2, []⟩) subjects [] (by simpa using hnd)
    simpa using this

/-- Claim C6: counterexample.  If the subjects endpoint lists `B` before `A`,
the written snapshot's top-level keys are `["B", "A"]`, which is not in
ascending subject-code order. -/
theorem claim_C6_counterexample :
    (term_course_dict [("B", "BSub"), ("A", "ASub")] (fun _ => [])).map Prod.fst = ["B", "A"]
      ∧ ¬ List.Sorted (· ≤ ·) (["B", "A"] : List String) := by
  refine ⟨by decide, fun h => ?_⟩
  have hba : ("B" : String) ≤ "A" := List.rel_of_sorted_cons h "A" (by simp)
  exact absurd ((strLeB_iff_le "B" "A").mpr hba) (by decide)

/-- Claim C6: witness. -/
theorem claim_C6_witness :
    List.Sorted (fun x y : ClassEntry => x.sectionNumber ≤ y.sectionNumber)
        [ClassEntry.mk "4100" "01", ClassEntry.mk "4100" "02"]
      ∧ (term_course_dict [("A", "ASub"), ("B", "BSub")] (fun _ => [])).map Prod.fst
          = ["A", "B"] := by
  constructor
  · exact claim_C6_snapshot_order.1 [⟨"4100", "02"⟩, ⟨"1100", "01"⟩, ⟨"4100", "01"⟩]
      "4100" [⟨"4100", "01"⟩, ⟨"4100", "02"⟩] (by decide)
  · exact claim_C6_snapshot_order.2.2 [("A", "ASub"), ("B", "BSub")] (fun _ => []) (by decide)

/-! ### Lemmas on the `(.+)\s*\((.+)\)` matcher (for C8) -/

theorem takeWhile_no_newline (l : List Char) (h : '\n' ∉ l) :
    l.takeWhile (fun x => x != '\n') = l := by
  induction l with
  | nil => rfl
  | cons c rest ih =>
    have hc : (c != '\n') = true := by
      simp only [bne_iff_ne, ne_eq]
      exact fun he => h (he ▸ List.mem_cons_self c rest)
    rw [List.takeWhile_cons, if_pos hc, ih (fun hm => h (List.mem_cons_of_mem c hm))]

theorem lastRParenSplit_append (code : List Char) (h : ')' ∉ code) :
    lastRParenSplit (code ++ [')']) = some code := by
  induction code with
  | nil => rfl
  | cons c cs ih =>
    have hc : c ≠ ')' := fun he => h (he ▸ List.mem_cons_self c cs)
    have ih2 := ih (fun hm => h (List.mem_cons_of_mem c hm))
    simp [lastRParenSplit, ih2]

theorem tryNameCode_none (l : List Char) (h : '(' ∉ l) : tryNameCode l = none := by
  cases hd : l.dropWhile isPySpace with
  | nil => simp [tryNameCode, hd]
  | cons c tail =>
    have hcl : c ∈ l := (List.dropWhile_sublist isPySpace (l := l)).mem
      (hd ▸ List.mem_cons_self c tail)
    have hc : ¬ c = '(' := fun he => h (he ▸ hcl)
    simp [tryNameCode, hd, hc]

theorem goNameCode_none (l : List Char) (h : '(' ∉ l) : goNameCode l = none := by
  induction l with
  | nil => rfl
  | cons c rest ih =>
    have h1 : '(' ∉ rest := fun hm => h (List.mem_cons_of_mem c hm)
    have h2 : tryNameCode (c :: rest) = none := tryNameCode_none _ h
    by_cases hc : c = '\n'
    · subst hc
      simp [goNameCode, h2]
    · simp [goNameCode, hc, ih h1, h2]

theorem goNameCode_paren (code : List Char) (hne : code ≠ [])
    (hcode : ∀ c ∈ code, c ≠ '(' ∧ c ≠ ')' ∧ c ≠ '\n') :
    goNameCode ('(' :: (code ++ [')'])) = some ([], code) := by
  have hnp : '(' ∉ code ++ [')'] := by
    intro hm
    rcases List.mem_append.mp hm with h | h
    · exact (hcode _ h).1 rfl
    · simp at h
  have h0 : goNameCode (code ++ [')']) = none := goNameCode_none _ hnp
  have hnl : '\n' ∉ code ++ [')'] := by
    intro hm
    rcases List.mem_append.mp hm with h | h
    · exact (hcode _ h).2.2 rfl
    · simp at h
  have htry : tryNameCode ('(' :: (code ++ [')'])) = some code := by
    have hdrop : ('(' :: (code ++ [')'])).dropWhile isPySpace = '(' :: (code ++ [')']) := by
      rw [List.dropWhile_cons, if_neg (by decide)]
    have htake : (code ++ [')']).takeWhile (fun x => x != '\n') = code ++ [')'] :=
      takeWhile_no_newline _ hnl
    have hlast : lastRParenSplit (code ++ [')']) = some code :=
      lastRParenSplit_append code (fun hm => (hcode _ hm).2.1 rfl)
    simp [tryNameCode, hdrop, htake, hlast, hne]
  simp [goNameCode, h0, htry]

theorem goNameCode_cons_of_some (c : Char) (hc : c ≠ '\n') {l a b : List Char}
    (h : goNameCode l = some (a, b)) : goNameCode (c :: l) = some (c :: a, b) := by
  simp [goNameCode, hc, h]

theorem goNameCode_prepend (x : List Char) (hx : ∀ c ∈ x, c ≠ '\n') :
    ∀ (y a b : List Char), goNameCode y = some (a, b) →
      goNameCode (x ++ y) = some (x ++ a, b) := by
  induction x with
  | nil => intro y a b hy; simpa using hy
  | cons c xs ih =>
    intro y a b hy
    have hc : ¬ c = '\n' := hx c (List.mem_cons_self c xs)
    have ih2 := ih (fun d hd => hx d (List.mem_cons_of_mem c hd)) y a b hy
    simp [goNameCode, hc, ih2]

theorem reMatchNameCode_name_code (name code : String) (hc : code ≠ "")
    (hcode : ∀ c ∈ code.data, c ≠ '(' ∧ c ≠ ')' ∧ c ≠ '\n')
    (hname : ∀ c ∈ name.data, c ≠ '\n') :
    ∃ g1, reMatchNameCode (name ++ " (" ++ code ++ ")") = some (g1, code) := by
  have hcd : code.data ≠ [] := by
    intro h0
    exact hc (by cases code with | mk l => cases h0; rfl)
  have hdata : (name ++ " (" ++ code ++ ")").data
      = name.data ++ ' ' :: '(' :: (code.data ++ [')']) := by
    show (((name ++ " (") ++ code) ++ ")").data = _
    simp [String.data_append]
  have hpar := goNameCode_paren code.data hcd hcode
  have hy : goNameCode (' ' :: '(' :: (code.data ++ [')'])) = some ([' '], code.data) :=
    goNameCode_cons_of_some ' ' (by decide) hpar
  cases hn : name.data with
  | nil =>
    refine ⟨" ", ?_⟩
    have hd2 : (name ++ " (" ++ code ++ ")").data = ' ' :: '(' :: (code.data ++ [')']) := by
      rw [hdata, hn]; rfl
    simp [reMatchNameCode, hd2, hpar]
  | cons c0 cs0 =>
    refine ⟨⟨c0 :: (cs0 ++ [' '])⟩, ?_⟩
    have hd2 : (name ++ " (" ++ code ++ ")").data
        = c0 :: (cs0 ++ (' ' :: '(' :: (code.data ++ [')']))) := by
      rw [hdata, hn]; rfl
    have hc0 : ¬ c0 = '\n' := hname c0 (by rw [hn]; exact List.mem_cons_self c0 cs0)
    have hxs : ∀ c ∈ cs0, c ≠ '\n' :=
      fun c hm => hname c (by rw [hn]; exact List.mem_cons_of_mem c0 hm)
    have hgo := goNameCode_prepend cs0 hxs _ [' '] code.data hy
    simp [reMatchNameCode, hd2, hc0, hgo]

/-- Claim C8: (corrected claim, amended part).  Every restriction item of form
`"<name> (<code>)"` under a non-`special_approval` type is rewritten to
`"<code>"`, while the `special_approval` entry is left in the processed
output unchanged (the original claim said its entries are removed). -/
theorem claim_C8_codify_restrictions :
    (∀ name code : String, code ≠ "" →
        (∀ c ∈ code.data, c ≠ '(' ∧ c ≠ ')' ∧ c ≠ '\n') →
        (∀ c ∈ name.data, c ≠ '\n') →
        rewriteRestrictionItem (name ++ " (" ++ code ++ ")") = code)
    ∧ (∀ (rmap : List (String × List String)) (ty : String) (items : List String),
        (ty, items) ∈ rmap → ty ≠ "special_approval" →
        (ty, items.map rewriteRestrictionItem) ∈ process_term_restrictions rmap)
    ∧ (∀ (rmap : List (String × List String)) (items : List String),
        ("special_approval", items) ∈ rmap →
        ("special_approval", items) ∈ process_term_restrictions rmap) := by
  refine ⟨?_, ?_, ?_⟩
  · intro name code hc hcode hname
    obtain ⟨g1, hg⟩ := reMatchNameCode_name_code name code hc hcode hname
    simp [rewriteRestrictionItem, hg]
  · intro rmap ty items hmem hty
    exact List.mem_map.mpr ⟨(ty, items), hmem, by simp [hty]⟩
  · intro rmap items hmem
    exact List.mem_map.mpr ⟨("special_approval", items), hmem, by simp⟩

/-- Claim C8: counterexample.  `process_term` skips the `special_approval` type
with `continue`, so its entries remain in the processed output — they are
not removed. -/
theorem claim_C8_counterexample :
    process_term_restrictions [("special_approval", ["Special permission of instructor"])]
        = [("special_approval", ["Special permission of instructor"])]
      ∧ (["Special permission of instructor"] : List String) ≠ [] := by
  exact ⟨rfl, by decide⟩

/-- Claim C8: witness. -/
theorem claim_C8_witness : rewriteRestrictionItem "Graduate (GR)" = "GR" := by
  have h := claim_C8_codify_restrictions.1 "Graduate" "GR" (by decide) (by decide) (by decide)
  have heq : ("Graduate" ++ " (" ++ "GR" ++ ")" : String) = "Graduate (GR)" := by decide
  rw [heq] at h
  exact h

/-! ### Lemmas on the `(.+), (.+)` matcher and the RCSID generator (for C9) -/

theorem goLastFirst_none (l : List Char) (h : ',' ∉ l) : goLastFirst l = none := by
  induction l with
  | nil => rfl
  | cons c rest ih =>
    have h1 : ',' ∉ rest := fun hm => h (List.mem_cons_of_mem c hm)
    have hc : ¬ c = ',' := fun he => h (he ▸ List.mem_cons_self c rest)
    by_cases hn : c = '\n'
    · subst hn
      simp [goLastFirst, hc]
    · simp [goLastFirst, hn, ih h1, hc]

theorem goLastFirst_cons_of_some (c : Char) (hc : c ≠ '\n') {l : List Char}
    {a b : List Char} (h : goLastFirst l = some (a, b)) :
    goLastFirst (c :: l) = some (c :: a, b) := by
  simp [goLastFirst, hc, h]

theorem goLastFirst_boundary (first : List Char) (hne : first ≠ [])
    (hnc : ',' ∉ first) (hnl : '\n' ∉ first) :
    goLastFirst (',' :: ' ' :: first) = some ([], first) := by
  have h0 : goLastFirst (' ' :: first) = none := by
    refine goLastFirst_none _ ?_
    intro hm
    rcases List.mem_cons.mp hm with h | h
    · exact absurd h (by decide)
    · exact hnc h
  cases first with
  | nil => exact absurd rfl hne
  | cons b bs =>
    have hb : ¬ b = '\n' := fun he => hnl (he ▸ List.mem_cons_self b bs)
    have hbs : bs.takeWhile (fun x => x != '\n') = bs :=
      takeWhile_no_newline bs (fun hm => hnl (List.mem_cons_of_mem b hm))
    have hstep : goLastFirst (',' :: ' ' :: b :: bs)
        = (match goLastFirst (' ' :: b :: bs) with
           | some (a, b2) => some (',' :: a, b2)
           | none =>
             if b = '\n' then none
             else some ([], b :: List.takeWhile (fun x => x != '\n') bs)) := rfl
    rw [hstep, h0]
    simp [hb, hbs]

theorem reMatchLastFirst_split (lastN firstN : String)
    (hl : lastN ≠ "") (hf : firstN ≠ "")
    (hlnl : ∀ c ∈ lastN.data, c ≠ '\n')
    (hfc : ',' ∉ firstN.data) (hfnl : '\n' ∉ firstN.data) :
    reMatchLastFirst (lastN ++ ", " ++ firstN) = some (lastN, firstN) := by
  have hfd : firstN.data ≠ [] := by
    intro h0
    exact hf (by cases firstN with | mk l => cases h0; rfl)
  have hdata : (lastN ++ ", " ++ firstN).data
      = lastN.data ++ ',' :: ' ' :: firstN.data := by
    show ((lastN ++ ", ") ++ firstN).data = _
    simp [String.data_append]
  have hbound := goLastFirst_boundary firstN.data hfd hfc hfnl
  cases hn : lastN.data with
  | nil => exact absurd (by cases lastN with | mk l => cases hn; rfl) hl
  | cons c0 cs0 =>
    have hd2 : (lastN ++ ", " ++ firstN).data
        = c0 :: (cs0 ++ (',' :: ' ' :: firstN.data)) := by
      rw [hdata, hn]; rfl
    have hc0 : ¬ c0 = '\n' := hlnl c0 (by rw [hn]; exact List.mem_cons_self c0 cs0)
    have hgo : goLastFirst (cs0 ++ (',' :: ' ' :: firstN.data))
        = some (cs0, firstN.data) := by
      have : ∀ (x : List Char), (∀ c ∈ x, c ≠ '\n') →
          goLastFirst (x ++ (',' :: ' ' :: firstN.data)) = some (x, firstN.data) := by
        intro x hx
        induction x with
        | nil => simpa using hbound
        | cons c xs ih =>
          have hc : c ≠ '\n' := hx c (List.mem_cons_self c xs)
          exact goLastFirst_cons_of_some c hc
            (ih (fun d hd => hx d (List.mem_cons_of_mem c hd)))
      exact this cs0 (fun c hm => hlnl c (by rw [hn]; exact List.mem_cons_of_mem c0 hm))
    have heta : (⟨c0 :: cs0⟩ : String) = lastN := by
      cases lastN with | mk l => cases hn; rfl
    simp [reMatchLastFirst, hd2, hc0, hgo, heta]

theorem collectAlpha5_spec :
    ∀ (l acc : List Char), acc.length < 5 →
      collectAlpha5 acc l
        = acc ++ (((l.filter Char.isAlpha).map Char.toLower).take (5 - acc.length)) := by
  intro l
  induction l with
  | nil => intro acc _; simp [collectAlpha5]
  | cons c rest ih =>
    intro acc hlen
    by_cases ha : c.isAlpha
    · simp only [collectAlpha5, ha, if_true]
      by_cases h5 : (acc ++ [c.toLower]).length = 5
      · rw [if_pos h5]
        have h4 : acc.length = 4 := by
          rw [List.length_append] at h5
          simpa using h5
        have hstep : 5 - acc.length = 1 := by omega
        simp [List.filter_cons, ha, hstep]
      · rw [if_neg h5]
        have hlt : (acc ++ [c.toLower]).length < 5 := by
          rw [List.length_append] at h5 ⊢
          simp only [List.length_singleton] at h5 ⊢
          omega
        rw [ih (acc ++ [c.toLower]) hlt]
        have hstep : 5 - acc.length = (5 - (acc ++ [c.toLower]).length) + 1 := by
          rw [List.length_append]
          simp only [List.length_singleton]
          omega
        simp [List.filter_cons, ha, hstep, List.take_succ_cons]
    · have hb : c.isAlpha = false := by simpa using ha
      simp only [collectAlpha5]
      rw [if_neg ha]
      rw [if_neg (show ¬ (acc.length = 5) by omega)]
      rw [ih acc hlen]
      simp [List.filter_cons, hb]

theorem firstAlphaLower_spec (l : List Char) :
    firstAlphaLower l = ((l.filter Char.isAlpha).map Char.toLower).take 1 := by
  induction l with
  | nil => rfl
  | cons c rest ih =>
    by_cases ha : c.isAlpha
    · simp [firstAlphaLower, List.filter_cons, ha]
    · have hb : c.isAlpha = false := by simpa using ha
      simp [firstAlphaLower, List.filter_cons, hb, ih]

theorem uniqLoop_min (keys : List String) (base : String) (k : Nat) (hk : 1 ≤ k)
    (hfree : base ++ toString k ∉ keys)
    (hbusy : ∀ j, 1 ≤ j → j < k → base ++ toString j ∈ keys) :
    ∀ (fuel c : Nat), 1 ≤ c → c ≤ k → k - c < fuel →
      uniqLoop keys base (base ++ toString c) (c + 1) fuel = base ++ toString k := by
  intro fuel
  induction fuel with
  | zero => intro c _ _ h; omega
  | succ f ih =>
    intro c hc1 hck hlt
    by_cases hck2 : c = k
    · subst hck2
      simp [uniqLoop, hfree]
    · have hmem : base ++ toString c ∈ keys := hbusy c hc1 (by omega)
      show (if base ++ toString c ∈ keys then
          uniqLoop keys base (base ++ toString (c + 1)) (c + 1 + 1) f
        else base ++ toString c) = base ++ toString k
      rw [if_pos hmem]
      exact ih (c + 1) (by omega) (by omega) (by omega)

/-- Claim C9: (confirmed).  For a display name `"<Last>, <First>"`,
`_generate_rcsid` builds the base identifier from up to the first five
alphabetic characters of `Last` (lowercased) followed by the first
alphabetic character of `First` (lowercased); it returns the base when it is
not yet a key of the instructor dictionary, and otherwise appends the
smallest integer `k ≥ 1` making it unique.  (The hypotheses keep the name
inside the `"<Last>, <First>"` shape the claim quantifies over, and bound
`k` by the dictionary size, which the distinctness of the candidates always
permits.) -/
theorem claim_C9_generate_rcsid :
    ∀ (instructors : List String) (lastN firstN : String),
      lastN ≠ "" → firstN ≠ "" →
      (∀ c ∈ lastN.data, c ≠ '\n') →
      ',' ∉ firstN.data → '\n' ∉ firstN.data →
      ∀ base : String,
        base = ⟨(((lastN.data.filter Char.isAlpha).map Char.toLower).take 5)
                ++ (((firstN.data.filter Char.isAlpha).map Char.toLower).take 1)⟩ →
        (base ∉ instructors →
            generate_rcsid instructors (lastN ++ ", " ++ firstN) = base)
        ∧ (∀ k, 1 ≤ k → k ≤ instructors.length →
            base ∈ instructors →
            (∀ j, 1 ≤ j → j < k → base ++ toString j ∈ instructors) →
            base ++ toString k ∉ instructors →
            generate_rcsid instructors (lastN ++ ", " ++ firstN) = base ++ toString k) := by
  intro instructors lastN firstN hl hf hlnl hfc hfnl base hbase
  have hsplit := reMatchLastFirst_split lastN firstN hl hf hlnl hfc hfnl
  have hbase2 : (⟨collectAlpha5 [] lastN.data ++ firstAlphaLower firstN.data⟩ : String)
      = base := by
    rw [hbase, collectAlpha5_spec lastN.data [] (by norm_num), firstAlphaLower_spec]
    rfl
  have hgen : generate_rcsid instructors (lastN ++ ", " ++ firstN)
      = uniqLoop instructors base base 1 (instructors.length + 1) := by
    simp only [generate_rcsid, hsplit]
    rw [hbase2]
  constructor
  · intro hnot
    rw [hgen]
    show (if base ∈ instructors then
        uniqLoop instructors base (base ++ toString 1) (1 + 1) instructors.length
      else base) = base
    rw [if_neg hnot]
  · intro k hk1 hklen hin hbusy hfree
    rw [hgen]
    show (if base ∈ instructors then
        uniqLoop instructors base (base ++ toString 1) (1 + 1) instructors.length
      else base) = base ++ toString k
    rw [if_pos hin]
    exact uniqLoop_min instructors base k hk1 hfree hbusy instructors.length 1
      (le_refl 1) hk1 (by omega)

/-- Claim C9: witness: `"Doe, John"` against `{"doej": …}` synthesizes
`"doej1"`, and a subsequent `"Doe, Jake"` against the updated dictionary
synthesizes `"doej2"`. -/
theorem claim_C9_witness :
    generate_rcsid ["doej"] ("Doe" ++ ", " ++ "John") = "doej1"
      ∧ generate_rcsid ["doej", "doej1"] ("Doe" ++ ", " ++ "Jake") = "doej2" := by
  constructor
  · have h := (claim_C9_generate_rcsid ["doej"] "Doe" "John" (by decide) (by decide)
      (by decide) (by decide) (by decide) "doej" (by decide)).2 1 (by decide) (by decide)
      (by decide) (fun j hj1 hj2 => by omega) (by decide)
    exact h.trans (by decide)
  · have h := (claim_C9_generate_rcsid ["doej", "doej1"] "Doe" "Jake" (by decide) (by decide)
      (by decide) (by decide) (by decide) "doej" (by decide)).2 2 (by decide) (by decide)
      (by decide) (fun j hj1 hj2 => by
        have hj : j = 1 := by omega
        subst hj
        decide) (by decide)
    exact h.trans (by decide)

end SisScraper
